import Mathlib

/-!
Verification of the sensitivity-ledger / reverse-autodiff core of
`src/deriv_engine.h`.

The C++ header is shallowly embedded below.  Machine integers
(`unsigned short`, `unsigned char`) are modelled as `Nat` with explicit
reduction modulo `2^16` (resp. `2^8`) at the points where the C++ code
performs a narrowing conversion; 32-bit floats are modelled as `ℚ`
(value-level behaviour of the accumulation arithmetic, ignoring rounding);
`std::vector<float>` as `List ℚ`; flat buffers read through
`StaticCoord`/`MutableCoord` views are modelled as total functions from
(system, vector-index, component) to `ℚ`.
-/

/-- Record of one consumer request on a ledger
(`struct DerivRecord`, deriv_engine.h:13-17).  The C++ fields `atom`,
`loc`, `output_width` are `unsigned short`; the `unused` padding field is
never read and is omitted. -/
structure DerivRecord where
  atom : Nat
  loc : Nat
  output_width : Nat
deriving DecidableEq, Repr

/-- The `DerivRecord(atom_, loc_, output_width_)` constructor: its
parameters are `unsigned short`, so every argument is narrowed modulo
`2^16` on storage. -/
def DerivRecord.make (atom loc output_width : Nat) : DerivRecord :=
  ⟨atom % 65536, loc % 65536, output_width % 65536⟩

/-- Consumer-side handle (`CoordPair` from coord.h, which is not under
`src/`).  Modelled from the spec: "`pair` carries the producer-side
element index (`index`) and an outparam `slot`"; both fields are
machine-integer indices, modelled as `Nat`. -/
structure CoordPair where
  index : Nat
  slot : Nat
deriving DecidableEq, Repr

/-- The sensitivity ledger (`struct SlotMachine`, deriv_engine.h:20-42).
`deriv_tape` and `accum` are the tape and the flat accumulation buffer;
`offset` mirrors the C++ running `int offset`. -/
structure SlotMachine where
  width : Nat
  n_elem : Nat
  n_system : Nat
  offset : Nat
  deriv_tape : List DerivRecord
  accum : List ℚ
deriving DecidableEq, Repr

/-- The `SlotMachine(width_, n_elem_, n_system_)` constructor: `offset = 0`
and both vectors empty. -/
def SlotMachine.init (width n_elem n_system : Nat) : SlotMachine :=
  ⟨width, n_elem, n_system, 0, [], []⟩

/-- `SlotMachine::add_request(output_width, pair)` (deriv_engine.h:33-39).
`prev_record` is the last tape record, or `DerivRecord(-1,0,0)` on an
empty tape (`(unsigned short)(-1) = 65535`).  The new record is
`DerivRecord(pair.index, prev_record.loc + prev_record.output_width,
output_width)`; the new `loc` is written into `pair.slot`; `accum` grows
by `output_width*width*n_system` zero floats and `offset` by
`output_width*width`.  The mutated `pair` is returned alongside the new
ledger state. -/
def SlotMachine.add_request (sm : SlotMachine) (output_width : Nat)
    (pair : CoordPair) : SlotMachine × CoordPair :=
  let prev_record : DerivRecord :=
    match sm.deriv_tape.getLast? with
    | some r => r
    | none => DerivRecord.make 65535 0 0
  let newRec : DerivRecord :=
    DerivRecord.make pair.index (prev_record.loc + prev_record.output_width)
      output_width
  ({ sm with
      deriv_tape := sm.deriv_tape ++ [newRec],
      accum := sm.accum ++ List.replicate (output_width * sm.width * sm.n_system) 0,
      offset := sm.offset + output_width * sm.width },
   { pair with slot := newRec.loc })

/-- The next slot a request would receive: `prev.loc + prev.output_width`
(0 on an empty tape, matching the `DerivRecord(-1,0,0)` sentinel whose
`loc` and `output_width` are both 0). -/
def SlotMachine.nextLoc (sm : SlotMachine) : Nat :=
  match sm.deriv_tape.getLast? with
  | some r => r.loc + r.output_width
  | none => 0

/-- A sequence of `add_request` calls, each given as
(output_width, pair). -/
def runRequests (sm : SlotMachine) : List (Nat × CoordPair) → SlotMachine
  | [] => sm
  | (ow, p) :: rest => runRequests (sm.add_request ow p).1 rest

/-- The slots handed back (written into `pair.slot`) by a sequence of
`add_request` calls, in call order. -/
def runRequestsSlots (sm : SlotMachine) : List (Nat × CoordPair) → List Nat
  | [] => []
  | (ow, p) :: rest =>
      let r := sm.add_request ow p
      r.2.slot :: runRequestsSlots r.1 rest

/-- Reference tape shape for a wrap-free run: starting at slot `loc`, each
request `(ow, p)` appends `⟨p.index % 2^16, loc, ow⟩` and advances the
slot by `ow`. -/
def specTape (loc : Nat) : List (Nat × CoordPair) → List DerivRecord
  | [] => []
  | (ow, p) :: rest => ⟨p.index % 65536, loc, ow⟩ :: specTape (loc + ow) rest

/-- Pointwise update of a function modelling an indexed store. -/
def fupd {α : Type} (f : Nat → α) (i : Nat) (v : α) : Nat → α :=
  fun j => if j = i then v else f j

/-- Sentinel slot value `(unsigned short)(-1)`. -/
def slotSentinel : Nat := 65535

/-- Per-element upstream-slot table for reverse autodiff
(`struct AutoDiffParams`, deriv_engine.h:45-78).  The fixed C++ arrays
`unsigned short slots1[6]` and `slots2[5]` are modelled as total
functions from the write index; `n_slots1`/`n_slots2` are
`unsigned char`. -/
structure AutoDiffParams where
  n_slots1 : Nat
  n_slots2 : Nat
  slots1 : Nat → Nat
  slots2 : Nat → Nat

/-- One copy loop of the `AutoDiffParams` constructor
(`for(auto i: slots_) if(i!=(unsigned short)(-1)) slots[loc++] = i;`).
Returns the updated store, the final `loc`, and the trace of store
indices written (in order).  The C++ array has a fixed capacity, so any
write index `≥` the capacity is out of bounds. -/
def storeLoop (f : Nat → Nat) (loc : Nat) (ws : List Nat) :
    List Nat → (Nat → Nat) × Nat × List Nat
  | [] => (f, loc, ws)
  | i :: rest =>
      if i ≠ slotSentinel then storeLoop (fupd f loc i) (loc + 1) (ws ++ [loc]) rest
      else storeLoop f loc ws rest

/-- The trailing `while(loc < cap) slots[loc++] = -1;` sentinel fill,
modelled by its effect on the store. -/
def fillSentinels (f : Nat → Nat) (loc cap : Nat) : Nat → Nat :=
  fun j => if loc ≤ j ∧ j < cap then slotSentinel else f j

/-- The two-list `AutoDiffParams` constructor (deriv_engine.h:50-63).
Uninitialised array contents are modelled as 0.  The stored
`n_slots1`/`n_slots2` counts are `unsigned char`, hence reduced modulo
`2^8`.  Note the constructor performs no capacity check: with more than
6 (resp. 5) non-sentinel inputs the copy loop's write index passes the
end of the fixed array. -/
def AutoDiffParams.ofLists (s1 s2 : List Nat) : AutoDiffParams :=
  let r1 := storeLoop (fun _ => 0) 0 [] s1
  let r2 := storeLoop (fun _ => 0) 0 [] s2
  { n_slots1 := r1.2.1 % 256,
    n_slots2 := r2.2.1 % 256,
    slots1 := fillSentinels r1.1 r1.2.1 6,
    slots2 := fillSentinels r2.1 r2.2.1 5 }

/-- The store indices written into `slots1` by
`AutoDiffParams::AutoDiffParams(slots1_, slots2_)` while copying the
non-sentinel entries of `slots1_`. -/
def slots1WriteIndices (s1 : List Nat) : List Nat :=
  (storeLoop (fun _ => 0) 0 [] s1).2.2

/-- A sensitivity vector (`TempCoord<W>::v` / `StaticCoord<W>::v`),
modelled as a total function from the component index; components
`≥ W` are never read by the embedded loops. -/
abbrev SensVec := Nat → ℚ

/-- A system-indexed flat buffer of vectors (`SysArray` viewed through
`StaticCoord`/`MutableCoord` at a vector index), modelled from the spec
of the coord.h views (coord.h is not under `src/`): `b ns idx d` is
component `d` of the vector stored at vector-index `idx` of system
`ns`. -/
abbrev SysBuf := Nat → Nat → SensVec

/-- One tape record of the sensitivity-gathering loop of
`reverse_autodiff` (deriv_engine.h:252-258): for each
`rec < tape_elem.output_width`, the vector at
`accum(ns, tape_elem.loc + rec)` is added componentwise into
`sens[tape_elem.atom]`. -/
def radSensStep (accum : SysBuf) (ns : Nat) (sens : Nat → SensVec)
    (r : DerivRecord) : Nat → SensVec :=
  (List.range r.output_width).foldl
    (fun s k => fupd s r.atom (fun d => s r.atom d + accum ns (r.loc + k) d))
    sens

/-- The producer-side sensitivities after the first phase of
`reverse_autodiff` for system `ns`: fold the gathering loop over the
whole tape, starting from the zero-initialised `TempCoord` vector. -/
def radSens (accum : SysBuf) (tape : List DerivRecord) (ns : Nat) :
    Nat → SensVec :=
  tape.foldl (radSensStep accum ns) (fun _ _ => 0)

/-- `MutableCoord c(deriv, ns, idx); for(d) c.v[d] *= sens; c.flush();`
(deriv_engine.h:265-267): multiply the vector stored at `(ns, idx)` by a
scalar, in place. -/
def scaleSlot (b : SysBuf) (ns idx : Nat) (c : ℚ) : SysBuf :=
  fun ns' idx' => if ns' = ns ∧ idx' = idx then (fun d => b ns' idx' d * c)
                  else b ns' idx'

/-- The `sens_dim` loop of the second phase of `reverse_autodiff`: for
each `sens_dim < W`, scale the vector at `(ns, s + sens_dim)` by
`sv sens_dim`. -/
def radBlock (W : Nat) (b : SysBuf) (ns s : Nat) (sv : SensVec) : SysBuf :=
  (List.range W).foldl (fun bb sd => scaleSlot bb ns (s + sd) (sv sd)) b

/-- The `nsl` loop of the second phase of `reverse_autodiff`: iterate
`radBlock` over the configured slots `slots 0, …, slots (cnt-1)`. -/
def radSlots (W : Nat) (slots : Nat → Nat) (cnt : Nat) (b : SysBuf)
    (ns : Nat) (sv : SensVec) : SysBuf :=
  (List.range cnt).foldl (fun bb nsl => radBlock W bb ns (slots nsl) sv) b

/-- The per-atom body of the second phase of `reverse_autodiff`
(deriv_engine.h:261-281): for atom `na`, when `width1 ≠ 0` scale the
`slots1` blocks of `deriv1`, and when `width2 ≠ 0` the `slots2` blocks
of `deriv2`, each by `sens[na]` along the sensitivity dimension. -/
def radAtomStep (my_width w1 w2 : Nat) (p : Nat → AutoDiffParams) (ns : Nat)
    (sens : Nat → SensVec) (bufs : SysBuf × SysBuf) (na : Nat) :
    SysBuf × SysBuf :=
  (if w1 ≠ 0 then radSlots my_width ((p na).slots1) ((p na).n_slots1) bufs.1 ns (sens na)
   else bufs.1,
   if w2 ≠ 0 then radSlots my_width ((p na).slots2) ((p na).n_slots2) bufs.2 ns (sens na)
   else bufs.2)

/-- The body of the `ns` loop of `reverse_autodiff`
(deriv_engine.h:250-282): compute `sens` from the tape, then run the
per-atom second phase over all `na < n_atom`. -/
def radSystem (my_width w1 w2 : Nat) (accum : SysBuf)
    (tape : List DerivRecord) (p : Nat → AutoDiffParams) (n_atom : Nat)
    (bufs : SysBuf × SysBuf) (ns : Nat) : SysBuf × SysBuf :=
  let sens := radSens accum tape ns
  (List.range n_atom).foldl (radAtomStep my_width w1 w2 p ns sens) bufs

/-- `reverse_autodiff<my_width, width1, width2>` (deriv_engine.h:238-283):
run the two-phase kernel for every system `ns < n_system`, returning the
final `(deriv1, deriv2)` buffers.  The `tape`/`n_tape` pointer-length
pair is modelled as the list `tape`, and `accum` is read-only. -/
def reverse_autodiff (my_width w1 w2 : Nat) (accum : SysBuf)
    (deriv1 deriv2 : SysBuf) (tape : List DerivRecord)
    (p : Nat → AutoDiffParams) (n_atom n_system : Nat) : SysBuf × SysBuf :=
  (List.range n_system).foldl
    (radSystem my_width w1 w2 accum tape p n_atom) (deriv1, deriv2)

/-- `enum ComputeMode { DerivMode = 0, PotentialAndDerivMode = 1 }`
(deriv_engine.h:80). -/
inductive ComputeMode where
  | derivMode
  | potentialAndDerivMode
deriving DecidableEq, Repr

/-- The position node (`struct Pos`, deriv_engine.h:124-140), with the
`CoordNode` base fields (deriv_engine.h:93-106) and the
`DerivComputation` base field `potential_term` inlined. -/
structure Pos where
  potential_term : Bool
  n_system : Nat
  n_elem : Nat
  elem_width : Nat
  output : List ℚ
  slot_machine : SlotMachine
  n_atom : Nat
  deriv : List ℚ
deriving DecidableEq, Repr

/-- The `Pos(n_atom_, n_system_)` constructor: base
`CoordNode(n_system_, n_atom_, 3)` gives `potential_term = false`,
`n_elem = n_atom`, `elem_width = 3`, `output` of
`n_system*n_elem*elem_width` zeros and a fresh
`SlotMachine(3, n_atom, n_system)`; `deriv` holds `3*n_atom*n_system`
zeros. -/
def Pos.init (n_atom n_system : Nat) : Pos :=
  { potential_term := false,
    n_system := n_system,
    n_elem := n_atom,
    elem_width := 3,
    output := List.replicate (n_system * n_atom * 3) 0,
    slot_machine := SlotMachine.init 3 n_atom n_system,
    n_atom := n_atom,
    deriv := List.replicate (3 * n_atom * n_system) 0 }

/-- `Pos::compute_value(ComputeMode mode) {}` (deriv_engine.h:134): the
body is empty, so the node state is returned unchanged in every mode. -/
def Pos.compute_value (p : Pos) (mode : ComputeMode) : Pos := p

/-- Sum of the ledger contributions accumulated against element `atom`,
component `d`, of a slot machine (system 0 layout): for every tape record
with that atom, add the `output_width` stored values at vector offsets
`loc + k`. -/
def SlotMachine.gathered (sm : SlotMachine) (atom d : Nat) : ℚ :=
  ((sm.deriv_tape.filter (fun r => r.atom == atom)).map
    (fun r => ((List.range r.output_width).map
        (fun k => sm.accum.getD ((r.loc + k) * sm.width + d) 0)).sum)).sum

/-- Modelled from the spec: the body of `Pos::propagate_deriv` is not
under `src/` (deriv_engine.h:135 only declares it).  Per the spec the
position node is inert on the reverse leg apart from receiving the
gradient of the total potential: it only gathers the sensitivities
accumulated in its own ledger into `deriv` (atom-major layout), leaving
`output` and the ledger untouched. -/
def Pos.propagate_deriv (p : Pos) : Pos :=
  let gathered := (List.range p.n_atom).flatMap
    (fun a => (List.range 3).map (fun d => p.slot_machine.gathered a d))
  { p with deriv := gathered }

/-- The classes of the `DerivComputation` hierarchy declared in
deriv_engine.h. -/
inductive CppClass where
  | derivComputation
  | coordNode
  | potentialNode
  | hbondCounter
  | pos
deriving DecidableEq, Repr

/-- Base classes (direct and transitive) of each class, as declared:
`CoordNode : public DerivComputation`, `PotentialNode : public
DerivComputation`, `HBondCounter : public PotentialNode`,
`Pos : public CoordNode`. -/
def baseClasses : CppClass → List CppClass
  | .derivComputation => []
  | .coordNode => [.derivComputation]
  | .potentialNode => [.derivComputation]
  | .hbondCounter => [.potentialNode, .derivComputation]
  | .pos => [.coordNode, .derivComputation]

/-- `c` is-a `t`: the `dynamic_cast<T&>` reference cast succeeds exactly
when the dynamic class equals the target or lists it among its bases. -/
def isSubclassOf (c t : CppClass) : Bool :=
  c == t || (baseClasses c).contains t

/-- A polymorphic `DerivComputation` object, tagged by its dynamic class
and carrying the data members of that class (deriv_engine.h:82-140). -/
inductive DerivComputation where
  | posComp (p : Pos)
  | coordComp (n_system n_elem elem_width : Nat) (output : List ℚ)
      (slot_machine : SlotMachine)
  | potentialComp (n_system : Nat) (potential : List ℚ)
  | hbondComp (n_system : Nat) (potential : List ℚ) (n_hbond : ℚ)
deriving DecidableEq, Repr

/-- Dynamic class of a computation object. -/
def DerivComputation.dynClass : DerivComputation → CppClass
  | .posComp _ => .pos
  | .coordComp _ _ _ _ _ => .coordNode
  | .potentialComp _ _ => .potentialNode
  | .hbondComp _ _ _ => .hbondCounter

/-- The `elem_width` member, for objects that are `CoordNode`s. -/
def DerivComputation.elemWidth? : DerivComputation → Option Nat
  | .posComp p => some p.elem_width
  | .coordComp _ _ w _ _ => some w
  | _ => none

/-- The `n_elem` member, for objects that are `CoordNode`s. -/
def DerivComputation.nElem? : DerivComputation → Option Nat
  | .posComp p => some p.n_elem
  | .coordComp _ n _ _ _ => some n
  | _ => none

/-- Error kinds surfaced by the engine paths modelled here. -/
inductive EngineError where
  | typeMismatch
  | argCountMismatch
  | nameNotFound
deriving DecidableEq, Repr

/-- `DerivEngine::Node` (deriv_engine.h:145-157): name, owned
computation, and parent/child indices into the engine's node table.  The
`germ_exec_level`/`deriv_exec_level` ints are set only by code outside
`src/` and are omitted. -/
structure EngineNode where
  name : String
  computation : DerivComputation
  parents : List Nat
  children : List Nat
deriving DecidableEq, Repr

/-- The node the `DerivEngine` constructor places at index 0:
`nodes.emplace_back("pos", new Pos(n_atom, n_system))`, with the
`Node(name_, computation_)` constructor leaving `parents`/`children`
empty. -/
def posNode (n_atom n_system : Nat) : EngineNode :=
  { name := "pos",
    computation := DerivComputation.posComp (Pos.init n_atom n_system),
    parents := [],
    children := [] }

/-- `struct DerivEngine` (deriv_engine.h:143-186): the node table and the
per-system potential vector.  The raw `Pos*` convenience pointer always
aliases `nodes[0]` and is not modelled separately. -/
structure DerivEngine where
  nodes : List EngineNode
  potential : List ℚ
deriving DecidableEq, Repr

/-- `DerivEngine(n_atom, n_system)` (deriv_engine.h:163-168): `potential`
holds `n_system` zero floats and the node table holds the single `"pos"`
node. -/
def DerivEngine.new (n_atom n_system : Nat) : DerivEngine :=
  { nodes := [posNode n_atom n_system],
    potential := List.replicate n_system 0 }

/-- Modelled from the spec: the body of `DerivEngine::get` is not under
`src/` (deriv_engine.h:175 only declares it); per the spec it performs
name lookup in the node table. -/
def DerivEngine.get? (e : DerivEngine) (name : String) : Option EngineNode :=
  e.nodes.find? (fun nd => nd.name == name)

/-- `DerivEngine::get_computation<T>` (deriv_engine.h:178-181):
`dynamic_cast<T&>(*get(name).computation.get())`.  The reference
`dynamic_cast` returns the object when its dynamic class is-a `T` and
throws (`TypeMismatch`) otherwise; a missing name is reported as
`nameNotFound`. -/
def DerivEngine.get_computation (e : DerivEngine) (name : String)
    (T : CppClass) : Except EngineError DerivComputation :=
  match e.get? name with
  | none => .error .nameNotFound
  | some nd =>
      if isSubclassOf nd.computation.dynClass T then .ok nd.computation
      else .error .typeMismatch

/-- Argument list handed to a node-creation function (`ArgList`,
deriv_engine.h:192).  Only its length is inspected by the embedded
arity checks. -/
abbrev ArgList := List Unit

/-- Modelled from the spec: the body of `check_arguments_length` is not
under `src/` (deriv_engine.h:200 only declares it); per the spec each
registration helper "enforces its arity at creation time", failing with
ArgCountMismatch when the argument count differs from the expected
count. -/
def check_arguments_length (args : ArgList) (n_expected : Int) :
    Except EngineError Unit :=
  if (args.length : Int) = n_expected then .ok () else .error .argCountMismatch

/-- The `RegisterNodeType<NodeClass, n_args>` helpers defined in
deriv_engine.h:202-235: explicit specialisations exist for `n_args`
0, 1 and 2 only, and each installs a creation function that first runs
`check_arguments_length(args, n_args)`.  The returned function is the
arity-checking part of that creation function; `none` means the header
defines no helper body for that arity (the primary template at
deriv_engine.h:202-205 has no constructor definition). -/
def registerNodeTypeHelper (n_args : Int) :
    Option (ArgList → Except EngineError Unit) :=
  if n_args = 0 then some (fun args => check_arguments_length args 0)
  else if n_args = 1 then some (fun args => check_arguments_length args 1)
  else if n_args = 2 then some (fun args => check_arguments_length args 2)
  else none

/-- Claim C6: for every `n_atom` (and ensemble size `n_system`),
`DerivEngine(n_atom, n_system)` yields an engine whose node table
contains exactly one node, residing at index 0: the `"pos"` node, a
`CoordNode` of dynamic class `Pos` with `elem_width = 3` and
`n_elem = n_atom`, having no parents. -/
theorem C6_engine_new (n_atom n_system : Nat) :
    (DerivEngine.new n_atom n_system).nodes.length = 1 ∧
    (DerivEngine.new n_atom n_system).nodes.head? = some (posNode n_atom n_system) ∧
    (posNode n_atom n_system).name = "pos" ∧
    (posNode n_atom n_system).parents = [] ∧
    (posNode n_atom n_system).computation.dynClass = CppClass.pos ∧
    isSubclassOf CppClass.pos CppClass.coordNode = true ∧
    (posNode n_atom n_system).computation.elemWidth? = some 3 ∧
    (posNode n_atom n_system).computation.nElem? = some n_atom :=
  ⟨rfl, rfl, rfl, rfl, rfl, rfl, rfl, rfl⟩

/-- Claim C10: the position node is inert: `Pos::compute_value` returns
the state unchanged in every compute mode (its body is empty), and on
the reverse leg `Pos::propagate_deriv` only receives the gradient into
`deriv`, leaving `output`, the ledger, and the node's shape fields
unchanged. -/
theorem C10_pos_inert (p : Pos) (mode : ComputeMode) :
    p.compute_value mode = p ∧
    (p.propagate_deriv).output = p.output ∧
    (p.propagate_deriv).slot_machine = p.slot_machine ∧
    (p.propagate_deriv).n_atom = p.n_atom ∧
    (p.propagate_deriv).n_elem = p.n_elem ∧
    (p.propagate_deriv).elem_width = p.elem_width ∧
    (p.propagate_deriv).potential_term = p.potential_term :=
  ⟨rfl, rfl, rfl, rfl, rfl, rfl, rfl⟩

/-- Claim C5 (code bug): `AutoDiffParams({0,1,2,3,4,5,6}, {})` has 7
non-sentinel type-1 slots.  The constructor performs no capacity check:
its copy loop writes at store index 6 — one past the end of the
6-element `slots1` array (undefined behaviour in the C++ source) — and
completes normally, storing `n_slots1 = 7`, instead of failing. -/
theorem C5_no_capacity_check :
    6 ∈ slots1WriteIndices [0, 1, 2, 3, 4, 5, 6] ∧
    (AutoDiffParams.ofLists [0, 1, 2, 3, 4, 5, 6] []).n_slots1 = 7 := by
  constructor
  · decide
  · rfl

/-- Claim C1 counterexample: on a ledger with `width = 3`,
`n_system = 2`, after `add_request(2, pair)` the next
`add_request(1, pair)` appends a record with `loc = 2` — the previous
`loc` plus the previous `output_width` WITHOUT the factor `width`
(the claim predicts `0 + 2*3 = 6`) — and the first request grows
`accum` by `2*3*2 = 12` floats, not by `output_width*width = 6`. -/
theorem C1_counterexample :
    (((runRequests (SlotMachine.init 3 1 2)
        [(2, ⟨0, 0⟩), (1, ⟨0, 0⟩)]).deriv_tape.map DerivRecord.loc).getD 1 99 = 2) ∧
    (2 : Nat) ≠ 0 + 2 * 3 ∧
    ((runRequests (SlotMachine.init 3 1 2) [(2, ⟨0, 0⟩)]).accum.length = 12) ∧
    (12 : Nat) ≠ 2 * 3 := by
  refine ⟨rfl, by decide, rfl, by decide⟩

/-- Claim C1 (amended): `add_request(output_width, pair)` appends exactly
one record whose `atom` equals `pair.index` (for a representable index),
whose `loc` equals the previous record's `loc` plus the previous
record's `output_width` — with no factor of `width` — reduced modulo
`2^16` (0 for the first record), writes that new `loc` into `pair.slot`,
and grows `accum` by `output_width × width × n_system` zero floats
(advancing `offset` by `output_width × width`). -/
theorem C1_add_request (sm : SlotMachine) (ow : Nat) (pair : CoordPair)
    (hidx : pair.index < 65536) :
    ∃ newRec : DerivRecord,
      (sm.add_request ow pair).1.deriv_tape = sm.deriv_tape ++ [newRec] ∧
      newRec.atom = pair.index ∧
      newRec.loc = sm.nextLoc % 65536 ∧
      newRec.output_width = ow % 65536 ∧
      (sm.add_request ow pair).2.slot = newRec.loc ∧
      (sm.add_request ow pair).2.index = pair.index ∧
      (sm.add_request ow pair).1.accum
        = sm.accum ++ List.replicate (ow * sm.width * sm.n_system) 0 ∧
      (sm.add_request ow pair).1.offset = sm.offset + ow * sm.width := by
  refine ⟨_, rfl, ?_, ?_, rfl, rfl, rfl, rfl, rfl⟩
  · simpa [DerivRecord.make] using Nat.mod_eq_of_lt hidx
  · simp only [SlotMachine.add_request, SlotMachine.nextLoc, DerivRecord.make]
    cases sm.deriv_tape.getLast? <;> rfl

/-- Witness for C1: the amended statement instantiated on the ledger
`SlotMachine(3, 1, 2)` with a single request `add_request(2, {5, 0})`. -/
theorem C1_add_request_witness :
    (5 : Nat) < 65536 ∧
    ∃ newRec : DerivRecord,
      ((SlotMachine.init 3 1 2).add_request 2 ⟨5, 0⟩).1.deriv_tape
        = (SlotMachine.init 3 1 2).deriv_tape ++ [newRec] ∧
      newRec.atom = 5 ∧
      newRec.loc = (SlotMachine.init 3 1 2).nextLoc % 65536 ∧
      newRec.output_width = 2 % 65536 ∧
      ((SlotMachine.init 3 1 2).add_request 2 ⟨5, 0⟩).2.slot = newRec.loc ∧
      ((SlotMachine.init 3 1 2).add_request 2 ⟨5, 0⟩).2.index = 5 ∧
      ((SlotMachine.init 3 1 2).add_request 2 ⟨5, 0⟩).1.accum
        = (SlotMachine.init 3 1 2).accum
          ++ List.replicate (2 * (SlotMachine.init 3 1 2).width
              * (SlotMachine.init 3 1 2).n_system) 0 ∧
      ((SlotMachine.init 3 1 2).add_request 2 ⟨5, 0⟩).1.offset
        = (SlotMachine.init 3 1 2).offset + 2 * (SlotMachine.init 3 1 2).width :=
  ⟨by decide, C1_add_request (SlotMachine.init 3 1 2) 2 ⟨5, 0⟩ (by decide)⟩

/-- Claim C9 counterexample: the header defines `RegisterNodeType`
specialisations only for arities 0, 1 and 2; there is no helper for
arity 3 and none for the variadic form `-1` (the primary template at
deriv_engine.h:202-205 declares but never defines a constructor). -/
theorem C9_counterexample :
    (registerNodeTypeHelper 3).isNone = true ∧
    (registerNodeTypeHelper (-1)).isNone = true := by
  constructor <;> rfl

/-- Claim C9 (amended): registration helpers exist exactly for the fixed
creation-function arities 0, 1 and 2 (no arity-3 and no variadic `-1`
helper is defined in the header), and each helper checks at
node-creation time that the number of parent arguments supplied equals
its declared arity, failing with ArgCountMismatch otherwise. -/
theorem C9_register_node_type :
    (∀ n : Int, (registerNodeTypeHelper n).isSome = true ↔ (n = 0 ∨ n = 1 ∨ n = 2)) ∧
    (∀ (n : Int) (f : ArgList → Except EngineError Unit),
      registerNodeTypeHelper n = some f →
        ∀ args : ArgList,
          (f args = .ok () ↔ (args.length : Int) = n) ∧
          (f args ≠ .ok () → f args = .error .argCountMismatch)) := by
  have hc : ∀ (args : ArgList) (n : Int),
      (check_arguments_length args n = .ok () ↔ (args.length : Int) = n) ∧
      (check_arguments_length args n ≠ .ok () →
        check_arguments_length args n = .error .argCountMismatch) := by
    intro args n
    unfold check_arguments_length
    split_ifs with hl <;> simp [hl]
  constructor
  · intro n
    unfold registerNodeTypeHelper
    split_ifs with h0 h1 h2
    · simp [h0]
    · simp [h1]
    · simp [h2]
    · simp [h0, h1, h2]
  · intro n f hf args
    unfold registerNodeTypeHelper at hf
    split_ifs at hf with h0 h1 h2 <;> (injection hf with hf; subst hf) <;> subst_vars
    · exact hc args 0
    · exact hc args 1
    · exact hc args 2

/-- Witness for C9: the arity-1 helper exists and its check accepts a
single-argument list; the existence criterion instantiated at 3 shows
there is no arity-3 helper. -/
theorem C9_register_node_type_witness :
    ((registerNodeTypeHelper 3).isSome = true ↔
      ((3 : Int) = 0 ∨ (3 : Int) = 1 ∨ (3 : Int) = 2)) ∧
    (registerNodeTypeHelper 1 = some (fun args => check_arguments_length args 1)) ∧
    ((check_arguments_length [()] 1 = .ok ()) ↔ (([()] : ArgList).length : Int) = 1) :=
  ⟨C9_register_node_type.1 3, rfl,
   (C9_register_node_type.2 1 (fun args => check_arguments_length args 1) rfl [()]).1⟩

/-- Claim C8: for every node name present in the engine, the typed
accessor `get_as<T>`/`get_computation<T>` returns the node's computation
exactly when the computation's dynamic class is-a `T`, and fails with
TypeMismatch otherwise — it never returns a value on a failed cast, and
being a pure lookup it leaves the engine unchanged. -/
theorem C8_get_computation (e : DerivEngine) (name : String) (T : CppClass)
    (nd : EngineNode) (h : e.get? name = some nd) :
    (isSubclassOf nd.computation.dynClass T = true →
      e.get_computation name T = .ok nd.computation) ∧
    (isSubclassOf nd.computation.dynClass T = false →
      e.get_computation name T = .error .typeMismatch) := by
  constructor <;> intro hsub <;> simp [DerivEngine.get_computation, h, hsub]

/-- Witness for C8: in the freshly constructed engine
`DerivEngine(2, 1)`, looking the `"pos"` node up as a `CoordNode`
succeeds (`Pos` is-a `CoordNode`) while looking it up as an
`HBondCounter` fails with TypeMismatch. -/
theorem C8_get_computation_witness :
    ((DerivEngine.new 2 1).get? "pos" = some (posNode 2 1)) ∧
    ((DerivEngine.new 2 1).get_computation "pos" CppClass.coordNode
      = .ok (posNode 2 1).computation) ∧
    ((DerivEngine.new 2 1).get_computation "pos" CppClass.hbondCounter
      = .error .typeMismatch) :=
  ⟨rfl,
   (C8_get_computation (DerivEngine.new 2 1) "pos" CppClass.coordNode
      (posNode 2 1) rfl).1 rfl,
   (C8_get_computation (DerivEngine.new 2 1) "pos" CppClass.hbondCounter
      (posNode 2 1) rfl).2 rfl⟩

/-- Effect of the inner `rec` loop of the gathering phase: folding the
componentwise additions for `k < n` onto `sens` adds the partial sums at
index `A` and leaves every other index untouched. -/
theorem foldl_gather_apply (A : Nat) (g : Nat → Nat → ℚ) :
    ∀ (n : Nat) (s : Nat → SensVec) (x d : Nat),
      ((List.range n).foldl
          (fun (s : Nat → SensVec) k => fupd s A (fun d => s A d + g k d)) s) x d
        = if x = A then s x d + ∑ k ∈ Finset.range n, g k d else s x d := by
  intro n
  induction n with
  | zero => intro s x d; simp
  | succ m ih =>
      intro s x d
      rw [List.range_succ, List.foldl_append, List.foldl_cons, List.foldl_nil]
      by_cases hx : x = A
      · subst hx
        simp only [fupd, if_pos rfl, if_true, eq_self_iff_true]
        rw [ih, Finset.sum_range_succ]
        simp [add_assoc]
      · simp only [fupd, if_neg hx]
        rw [ih]
        simp [hx]

/-- Pointwise description of one gathering step: record `r` adds the sum
of its `output_width` accumulated vectors to `sens[r.atom]` and changes
nothing else. -/
theorem radSensStep_apply (accum : SysBuf) (ns : Nat) (s : Nat → SensVec)
    (r : DerivRecord) (x d : Nat) :
    radSensStep accum ns s r x d
      = if x = r.atom then
          s x d + ∑ k ∈ Finset.range r.output_width, accum ns (r.loc + k) d
        else s x d :=
  foldl_gather_apply r.atom (fun k d => accum ns (r.loc + k) d)
    r.output_width s x d

/-- Folding the gathering step over a tape adds, at each index `a`, the
contributions of exactly the records with `atom = a`. -/
theorem foldl_radSensStep (accum : SysBuf) (ns : Nat) :
    ∀ (tape : List DerivRecord) (s : Nat → SensVec) (a d : Nat),
      (tape.foldl (radSensStep accum ns) s) a d
        = s a d + ((tape.filter (fun r => r.atom == a)).map
            (fun r => ∑ k ∈ Finset.range r.output_width,
                accum ns (r.loc + k) d)).sum := by
  intro tape
  induction tape with
  | nil => intro s a d; simp
  | cons r rest ih =>
      intro s a d
      simp only [List.foldl_cons]
      rw [ih, radSensStep_apply]
      by_cases hra : r.atom = a
      · rw [if_pos hra.symm]
        simp [List.filter_cons, hra, add_assoc]
      · rw [if_neg (fun hh => hra hh.symm)]
        simp [List.filter_cons, hra]

/-- Claim C3: in the first phase of `reverse_autodiff`, for every tape
and system `ns`, the `W`-vector stored at `accum(ns, r.loc + k)` is
added to `sens[r.atom]` for each record `r` and each
`k < r.output_width`, so that after the phase `sens[a]` equals the sum,
over all tape records with `atom = a`, of their `output_width`
accumulated vectors. -/
theorem C3_rad_sens (accum : SysBuf) (tape : List DerivRecord)
    (ns a d : Nat) :
    radSens accum tape ns a d
      = ((tape.filter (fun r => r.atom == a)).map
          (fun r => ∑ k ∈ Finset.range r.output_width,
              accum ns (r.loc + k) d)).sum := by
  unfold radSens
  rw [foldl_radSensStep]
  simp

/-- Every record a run of `add_request` calls appends has all three
fields below `2^16`: each is produced by the narrowing `DerivRecord`
constructor. -/
theorem runRequests_fields_lt :
    ∀ (reqs : List (Nat × CoordPair)) (sm : SlotMachine),
      (∀ r ∈ sm.deriv_tape,
        r.atom < 65536 ∧ r.loc < 65536 ∧ r.output_width < 65536) →
      ∀ r ∈ (runRequests sm reqs).deriv_tape,
        r.atom < 65536 ∧ r.loc < 65536 ∧ r.output_width < 65536 := by
  intro reqs
  induction reqs with
  | nil => intro sm hsm; simpa [runRequests] using hsm
  | cons q rest ih =>
      intro sm hsm r hr
      rcases q with ⟨ow, p⟩
      refine ih (sm.add_request ow p).1 ?_ r hr
      intro r' hr'
      simp only [SlotMachine.add_request, List.mem_append, List.mem_singleton]
        at hr'
      rcases hr' with hr' | hr'
      · exact hsm r' hr'
      · subst hr'
        refine ⟨Nat.mod_lt _ (by decide), Nat.mod_lt _ (by decide),
          Nat.mod_lt _ (by decide)⟩

/-- Claim C7: tape-record fields (`atom`, `loc`, `output_width`) are
16-bit — every stored field is below `2^16` — and the slot offset is
reduced modulo `2^16`: for the request sequence with output widths
65535, 1, 5 (cumulative 65541 > 65535) the third returned slot wraps
around and coincides with the first returned slot. -/
theorem C7_ushort_wrap :
    (∀ (width n_elem n_system : Nat) (reqs : List (Nat × CoordPair)),
      ∀ r ∈ (runRequests (SlotMachine.init width n_elem n_system) reqs).deriv_tape,
        r.atom < 65536 ∧ r.loc < 65536 ∧ r.output_width < 65536) ∧
    ((65535 + 1 + 5 : Nat) > 65535 ∧
     runRequestsSlots (SlotMachine.init 1 1 1)
        [(65535, ⟨0, 0⟩), (1, ⟨0, 0⟩), (5, ⟨0, 0⟩)] = [0, 65535, 0] ∧
     (runRequestsSlots (SlotMachine.init 1 1 1)
        [(65535, ⟨0, 0⟩), (1, ⟨0, 0⟩), (5, ⟨0, 0⟩)]).getD 2 7
       = (runRequestsSlots (SlotMachine.init 1 1 1)
        [(65535, ⟨0, 0⟩), (1, ⟨0, 0⟩), (5, ⟨0, 0⟩)]).getD 0 7) := by
  refine ⟨?_, by decide, rfl, rfl⟩
  intro width n_elem n_system reqs
  exact runRequests_fields_lt reqs _ (by simp [SlotMachine.init])

/-- Witness for C7: the representation bound instantiated on a concrete
one-request run, whose single tape record is `⟨3, 0, 2⟩`. -/
theorem C7_ushort_wrap_witness :
    (⟨3, 0, 2⟩ : DerivRecord)
        ∈ (runRequests (SlotMachine.init 1 1 1) [(2, ⟨3, 0⟩)]).deriv_tape ∧
    ((3 : Nat) < 65536 ∧ (0 : Nat) < 65536 ∧ (2 : Nat) < 65536) :=
  ⟨by decide, C7_ushort_wrap.1 1 1 1 [(2, ⟨3, 0⟩)] ⟨3, 0, 2⟩ (by decide)⟩

/-- The last element of a list extended by one element. -/
theorem getLast?_append_singleton {α : Type} (l : List α) (a : α) :
    (l ++ [a]).getLast? = some a := by
  induction l with
  | nil => rfl
  | cons b rest ih =>
      rw [List.cons_append, List.getLast?_cons]
      simp [List.getLast?_cons, ih]

/-- One `add_request` call on a wrap-free ledger appends the record
`⟨pair.index % 2^16, nextLoc, output_width⟩`. -/
theorem add_request_tape (sm : SlotMachine) (ow : Nat) (p : CoordPair)
    (hloc : sm.nextLoc ≤ 65535) (how : ow ≤ 65535) :
    (sm.add_request ow p).1.deriv_tape
      = sm.deriv_tape ++ [⟨p.index % 65536, sm.nextLoc, ow⟩] := by
  have hloc' : sm.nextLoc % 65536 = sm.nextLoc :=
    Nat.mod_eq_of_lt (Nat.lt_succ_of_le hloc)
  have how' : ow % 65536 = ow := Nat.mod_eq_of_lt (Nat.lt_succ_of_le how)
  simp only [SlotMachine.add_request, SlotMachine.nextLoc, DerivRecord.make]
    at hloc' ⊢
  cases hl : sm.deriv_tape.getLast? with
  | none => simp only [hl] at hloc' ⊢; simp [how']
  | some r => simp only [hl] at hloc' ⊢; simp [hloc', how']

/-- One wrap-free `add_request` call advances `nextLoc` by exactly the
requested `output_width`. -/
theorem add_request_nextLoc (sm : SlotMachine) (ow : Nat) (p : CoordPair)
    (hloc : sm.nextLoc ≤ 65535) (how : ow ≤ 65535) :
    (sm.add_request ow p).1.nextLoc = sm.nextLoc + ow := by
  unfold SlotMachine.nextLoc
  rw [add_request_tape sm ow p hloc how, getLast?_append_singleton]
  rfl

/-- `add_request` leaves `width` unchanged. -/
theorem add_request_width (sm : SlotMachine) (ow : Nat) (p : CoordPair) :
    (sm.add_request ow p).1.width = sm.width := rfl

/-- `add_request` leaves `n_system` unchanged. -/
theorem add_request_n_system (sm : SlotMachine) (ow : Nat) (p : CoordPair) :
    (sm.add_request ow p).1.n_system = sm.n_system := rfl

/-- Total `accum` growth of a request sequence:
`Σ output_width × width × n_system` floats. -/
theorem runRequests_accum_length :
    ∀ (reqs : List (Nat × CoordPair)) (sm : SlotMachine),
      (runRequests sm reqs).accum.length
        = sm.accum.length + (reqs.map Prod.fst).sum * sm.width * sm.n_system := by
  intro reqs
  induction reqs with
  | nil => intro sm; simp [runRequests]
  | cons q rest ih =>
      intro sm
      rcases q with ⟨ow, p⟩
      rw [runRequests, ih, add_request_width, add_request_n_system]
      have hlen : (sm.add_request ow p).1.accum.length
          = sm.accum.length + ow * sm.width * sm.n_system := by
        simp [SlotMachine.add_request]
      rw [hlen]
      simp only [List.map_cons, List.sum_cons]
      ring

/-- Tape shape of a wrap-free request sequence: appending
`specTape nextLoc reqs`. -/
theorem runRequests_tape_spec :
    ∀ (reqs : List (Nat × CoordPair)) (sm : SlotMachine),
      sm.nextLoc + (reqs.map Prod.fst).sum ≤ 65535 →
      (runRequests sm reqs).deriv_tape = sm.deriv_tape ++ specTape sm.nextLoc reqs := by
  intro reqs
  induction reqs with
  | nil => intro sm h; simp [runRequests, specTape]
  | cons q rest ih =>
      intro sm h
      rcases q with ⟨ow, p⟩
      simp only [List.map_cons, List.sum_cons] at h
      have hloc : sm.nextLoc ≤ 65535 := by omega
      have how : ow ≤ 65535 := by omega
      rw [runRequests, ih _ (by rw [add_request_nextLoc sm ow p hloc how]; omega),
        add_request_tape sm ow p hloc how, add_request_nextLoc sm ow p hloc how,
        specTape, List.append_assoc, List.singleton_append]

/-- Every record of `specTape loc reqs` starts at or after `loc`. -/
theorem specTape_loc_ge :
    ∀ (reqs : List (Nat × CoordPair)) (loc : Nat),
      ∀ r ∈ specTape loc reqs, loc ≤ r.loc := by
  intro reqs
  induction reqs with
  | nil => intro loc r hr; simp [specTape] at hr
  | cons q rest ih =>
      intro loc r hr
      rcases q with ⟨ow, p⟩
      simp only [specTape, List.mem_cons] at hr
      rcases hr with hr | hr
      · subst hr; exact le_refl _
      · exact le_trans (Nat.le_add_right loc ow) (ih (loc + ow) r hr)

/-- Every record of `specTape loc reqs` ends at or before
`loc` plus the total requested width. -/
theorem specTape_loc_le :
    ∀ (reqs : List (Nat × CoordPair)) (loc : Nat),
      ∀ r ∈ specTape loc reqs,
        r.loc + r.output_width ≤ loc + (reqs.map Prod.fst).sum := by
  intro reqs
  induction reqs with
  | nil => intro loc r hr; simp [specTape] at hr
  | cons q rest ih =>
      intro loc r hr
      rcases q with ⟨ow, p⟩
      simp only [specTape, List.mem_cons] at hr
      simp only [List.map_cons, List.sum_cons]
      rcases hr with hr | hr
      · subst hr; simp
      · have := ih (loc + ow) r hr; omega

/-- The intervals `[loc, loc + output_width)` of the records of
`specTape loc reqs` follow each other without overlap. -/
theorem specTape_chain :
    ∀ (reqs : List (Nat × CoordPair)) (loc : Nat),
      List.Pairwise (fun r s => r.loc + r.output_width ≤ s.loc)
        (specTape loc reqs) := by
  intro reqs
  induction reqs with
  | nil => intro loc; simp [specTape]
  | cons q rest ih =>
      intro loc
      rcases q with ⟨ow, p⟩
      simp only [specTape]
      refine List.Pairwise.cons ?_ (ih (loc + ow))
      intro s hs
      exact specTape_loc_ge rest (loc + ow) s hs

/-- Claim C2 counterexample: with `width = 1`, `n_system = 2` and output
widths 40000, 40000, 1, the third record's `loc` wraps modulo `2^16` to
14464 < 40000, so the tape's `loc` values are NOT monotonically
non-decreasing; and with one request of width 2 on a `width = 3`,
`n_system = 2` ledger, `accum` ends with 12 floats, NOT
`Σ output_width × width = 6`. -/
theorem C2_counterexample :
    (((runRequests (SlotMachine.init 1 1 2)
        [(40000, ⟨0, 0⟩), (40000, ⟨0, 0⟩), (1, ⟨0, 0⟩)]).deriv_tape.map
          DerivRecord.loc) = [0, 40000, 14464]) ∧
    ¬ ((40000 : Nat) ≤ 14464) ∧
    ((runRequests (SlotMachine.init 3 1 2) [(2, ⟨0, 0⟩)]).accum.length = 12) ∧
    (12 : Nat) ≠ 2 * 3 := by
  exact ⟨rfl, by decide, rfl, by decide⟩

/-- Claim C2 (amended): after any sequence of `add_request` calls on a
fresh ledger with `width ≥ 1`, `n_system ≥ 1`, whose total requested
output width stays ≤ 65535 (no 16-bit wrap), every record `r` satisfies
`r.loc + r.output_width × width ≤ accum.len()`, the vector-index ranges
`[loc, loc + output_width)` of distinct records never overlap, record
`loc` values are monotonically non-decreasing in tape order, and
`accum.len()` equals the sum over all records of
`output_width × width × n_system` (the per-system total times the
system count). -/
theorem C2_ledger_invariants (width n_elem n_system : Nat)
    (reqs : List (Nat × CoordPair)) (hw : 1 ≤ width) (hs : 1 ≤ n_system)
    (h : (reqs.map Prod.fst).sum ≤ 65535) :
    (∀ r ∈ (runRequests (SlotMachine.init width n_elem n_system) reqs).deriv_tape,
      r.loc + r.output_width * width
        ≤ (runRequests (SlotMachine.init width n_elem n_system) reqs).accum.length) ∧
    List.Pairwise (fun r s => r.loc + r.output_width ≤ s.loc)
      (runRequests (SlotMachine.init width n_elem n_system) reqs).deriv_tape ∧
    List.Pairwise (fun r s => r.loc ≤ s.loc)
      (runRequests (SlotMachine.init width n_elem n_system) reqs).deriv_tape ∧
    (runRequests (SlotMachine.init width n_elem n_system) reqs).accum.length
      = (reqs.map Prod.fst).sum * width * n_system := by
  have hnext : (SlotMachine.init width n_elem n_system).nextLoc = 0 := rfl
  have htape := runRequests_tape_spec reqs (SlotMachine.init width n_elem n_system)
    (by rw [hnext]; omega)
  rw [hnext] at htape
  have hlen := runRequests_accum_length reqs (SlotMachine.init width n_elem n_system)
  simp only [SlotMachine.init] at hlen
  have hlen' : (runRequests (SlotMachine.init width n_elem n_system) reqs).accum.length
      = (reqs.map Prod.fst).sum * width * n_system := by
    simpa [SlotMachine.init] using hlen
  refine ⟨?_, ?_, ?_, hlen'⟩
  · intro r hr
    rw [htape] at hr
    simp only [SlotMachine.init, List.nil_append] at hr
    have hub := specTape_loc_le reqs 0 r hr
    simp only [Nat.zero_add] at hub
    rw [hlen']
    calc r.loc + r.output_width * width
        ≤ r.loc * width + r.output_width * width := by
          have : r.loc ≤ r.loc * width := Nat.le_mul_of_pos_right _ (by omega)
          omega
      _ = (r.loc + r.output_width) * width := by ring
      _ ≤ (reqs.map Prod.fst).sum * width := Nat.mul_le_mul_right _ hub
      _ ≤ (reqs.map Prod.fst).sum * width * n_system :=
          Nat.le_mul_of_pos_right _ (by omega)
  · rw [htape]
    simpa [SlotMachine.init] using specTape_chain reqs 0
  · rw [htape]
    simp only [SlotMachine.init, List.nil_append]
    exact (specTape_chain reqs 0).imp (fun {r s} hrs => by omega)

/-- Witness for C2: the amended invariants instantiated on the ledger
`SlotMachine(3, 1, 2)` with requests of output widths 2 and 1. -/
theorem C2_ledger_invariants_witness :
    ((1 : Nat) ≤ 3 ∧ (1 : Nat) ≤ 2 ∧
      (([(2, (⟨0, 0⟩ : CoordPair)), (1, ⟨0, 0⟩)].map Prod.fst).sum ≤ 65535)) ∧
    ((∀ r ∈ (runRequests (SlotMachine.init 3 1 2)
          [(2, ⟨0, 0⟩), (1, ⟨0, 0⟩)]).deriv_tape,
        r.loc + r.output_width * 3
          ≤ (runRequests (SlotMachine.init 3 1 2)
              [(2, ⟨0, 0⟩), (1, ⟨0, 0⟩)]).accum.length) ∧
      List.Pairwise (fun r s => r.loc + r.output_width ≤ s.loc)
        (runRequests (SlotMachine.init 3 1 2)
          [(2, ⟨0, 0⟩), (1, ⟨0, 0⟩)]).deriv_tape ∧
      List.Pairwise (fun r s => r.loc ≤ s.loc)
        (runRequests (SlotMachine.init 3 1 2)
          [(2, ⟨0, 0⟩), (1, ⟨0, 0⟩)]).deriv_tape ∧
      (runRequests (SlotMachine.init 3 1 2)
          [(2, ⟨0, 0⟩), (1, ⟨0, 0⟩)]).accum.length
        = ([(2, (⟨0, 0⟩ : CoordPair)), (1, ⟨0, 0⟩)].map Prod.fst).sum * 3 * 2) :=
  ⟨⟨by decide, by decide, by decide⟩,
   C2_ledger_invariants 3 1 2 [(2, ⟨0, 0⟩), (1, ⟨0, 0⟩)]
     (by decide) (by decide) (by decide)⟩

/-- `scaleSlot` leaves every other (system, index) cell unchanged. -/
theorem scaleSlot_apply_ne (b : SysBuf) (ns idx : Nat) (c : ℚ)
    (ns' idx' d : Nat) (h : ¬(ns' = ns ∧ idx' = idx)) :
    scaleSlot b ns idx c ns' idx' d = b ns' idx' d := by
  simp [scaleSlot, h]

/-- `scaleSlot` multiplies the targeted cell componentwise. -/
theorem scaleSlot_apply_eq (b : SysBuf) (ns idx : Nat) (c : ℚ) (d : Nat) :
    scaleSlot b ns idx c ns idx d = b ns idx d * c := by
  simp [scaleSlot]

/-- Unfolding the last iteration of the `sens_dim` loop. -/
theorem radBlock_succ (W : Nat) (b : SysBuf) (ns s : Nat) (sv : SensVec) :
    radBlock (W + 1) b ns s sv
      = scaleSlot (radBlock W b ns s sv) ns (s + W) (sv W) := by
  unfold radBlock
  rw [List.range_succ, List.foldl_append, List.foldl_cons, List.foldl_nil]

/-- Frame property of the `sens_dim` loop: a cell outside the written
block `{(ns, s + sd) | sd < W}` is unchanged. -/
theorem radBlock_untouched (ns s : Nat) (sv : SensVec) (ns' idx' d : Nat) :
    ∀ (W : Nat) (b : SysBuf),
      (∀ sd < W, ¬(ns' = ns ∧ idx' = s + sd)) →
      radBlock W b ns s sv ns' idx' d = b ns' idx' d := by
  intro W
  induction W with
  | zero => intro b h; simp [radBlock]
  | succ m ih =>
      intro b h
      rw [radBlock_succ,
        scaleSlot_apply_ne _ _ _ _ _ _ _ (h m (Nat.lt_succ_self m))]
      exact ih b (fun sd hsd => h sd (Nat.lt_succ_of_lt hsd))

/-- Value property of the `sens_dim` loop: the cell at `(ns, s + sd)`
with `sd < W` ends as its old value times `sv sd`. -/
theorem radBlock_value (ns s : Nat) (sv : SensVec) (d : Nat) :
    ∀ (W : Nat) (b : SysBuf) (sd : Nat), sd < W →
      radBlock W b ns s sv ns (s + sd) d = b ns (s + sd) d * sv sd := by
  intro W
  induction W with
  | zero => intro b sd h; omega
  | succ m ih =>
      intro b sd hsd
      rw [radBlock_succ]
      rcases Nat.lt_succ_iff_lt_or_eq.mp hsd with hlt | heq
      · rw [scaleSlot_apply_ne _ _ _ _ _ _ _ (by omega)]
        exact ih b sd hlt
      · subst heq
        rw [scaleSlot_apply_eq,
          radBlock_untouched ns s sv ns (s + sd) d sd b (fun k hk => by omega)]

/-- Unfolding the last iteration of the `nsl` loop. -/
theorem radSlots_succ (W : Nat) (slots : Nat → Nat) (cnt : Nat) (b : SysBuf)
    (ns : Nat) (sv : SensVec) :
    radSlots W slots (cnt + 1) b ns sv
      = radBlock W (radSlots W slots cnt b ns sv) ns (slots cnt) sv := by
  unfold radSlots
  rw [List.range_succ, List.foldl_append, List.foldl_cons, List.foldl_nil]

/-- Frame property of the `nsl` loop: a cell outside every written block
is unchanged. -/
theorem radSlots_untouched (W : Nat) (slots : Nat → Nat) (ns : Nat)
    (sv : SensVec) (ns' idx' d : Nat) :
    ∀ (cnt : Nat) (b : SysBuf),
      (∀ nsl < cnt, ∀ sd < W, ¬(ns' = ns ∧ idx' = slots nsl + sd)) →
      radSlots W slots cnt b ns sv ns' idx' d = b ns' idx' d := by
  intro cnt
  induction cnt with
  | zero => intro b h; simp [radSlots]
  | succ m ih =>
      intro b h
      rw [radSlots_succ,
        radBlock_untouched ns (slots m) sv ns' idx' d W _
          (fun sd hsd => h m (Nat.lt_succ_self m) sd hsd)]
      exact ih b (fun nsl hnsl sd hsd => h nsl (Nat.lt_succ_of_lt hnsl) sd hsd)

/-- Value property of the `nsl` loop: when the targeted cell
`(ns, slots nsl + sd)` is written by no other `(nsl', sd')` pair, it
ends as its old value times `sv sd`. -/
theorem radSlots_value (W : Nat) (slots : Nat → Nat) (ns : Nat)
    (sv : SensVec) (d : Nat) :
    ∀ (cnt : Nat) (b : SysBuf) (nsl sd : Nat), nsl < cnt → sd < W →
      (∀ nsl' < cnt, ∀ sd' < W,
        slots nsl' + sd' = slots nsl + sd → nsl' = nsl ∧ sd' = sd) →
      radSlots W slots cnt b ns sv ns (slots nsl + sd) d
        = b ns (slots nsl + sd) d * sv sd := by
  intro cnt
  induction cnt with
  | zero => intro b nsl sd h; omega
  | succ m ih =>
      intro b nsl sd hnsl hsd sep
      rw [radSlots_succ]
      rcases Nat.lt_succ_iff_lt_or_eq.mp hnsl with hlt | heq
      · rw [radBlock_untouched ns (slots m) sv ns (slots nsl + sd) d W _ ?_]
        · exact ih b nsl sd hlt hsd
            (fun nsl' hnsl' sd' hsd' he =>
              sep nsl' (Nat.lt_succ_of_lt hnsl') sd' hsd' he)
        · intro sd' hsd' hcon
          have := sep m (Nat.lt_succ_self m) sd' hsd' hcon.2.symm
          omega
      · subst heq
        rw [radBlock_value ns (slots nsl) sv d W _ sd hsd,
          radSlots_untouched W slots ns sv ns (slots nsl + sd) d nsl b ?_]
        intro nsl' hnsl' sd' hsd' hcon
        have := sep nsl' (Nat.lt_succ_of_lt hnsl') sd' hsd' hcon.2.symm
        omega

/-- Single-buffer view of the per-atom loop of the second phase: for each
atom `na` of `l` in order, when the buffer's width `w` is nonzero scale
its configured blocks by `sens na`. -/
def radAtoms (W w : Nat) (slotsOf : Nat → Nat → Nat) (cntOf : Nat → Nat)
    (sens : Nat → SensVec) (ns : Nat) (b : SysBuf) (l : List Nat) : SysBuf :=
  l.foldl (fun bb na =>
    if w ≠ 0 then radSlots W (slotsOf na) (cntOf na) bb ns (sens na) else bb) b

/-- The pair-valued per-atom fold acts componentwise: its first component
is the `radAtoms` fold of `deriv1` over `slots1`, its second the
`radAtoms` fold of `deriv2` over `slots2`. -/
theorem foldl_radAtomStep_split (my_width w1 w2 : Nat)
    (p : Nat → AutoDiffParams) (ns : Nat) (sens : Nat → SensVec) :
    ∀ (l : List Nat) (bufs : SysBuf × SysBuf),
      l.foldl (radAtomStep my_width w1 w2 p ns sens) bufs
        = (radAtoms my_width w1 (fun na => (p na).slots1)
             (fun na => (p na).n_slots1) sens ns bufs.1 l,
           radAtoms my_width w2 (fun na => (p na).slots2)
             (fun na => (p na).n_slots2) sens ns bufs.2 l) := by
  intro l
  induction l with
  | nil => intro bufs; simp [radAtoms]
  | cons na rest ih =>
      intro bufs
      rw [List.foldl_cons, ih]
      rfl

/-- `radAtoms` never touches a cell of another system. -/
theorem radAtoms_other_system (W w : Nat) (slotsOf : Nat → Nat → Nat)
    (cntOf : Nat → Nat) (sens : Nat → SensVec) (ns : Nat)
    (ns' idx' d : Nat) (hns : ns' ≠ ns) :
    ∀ (l : List Nat) (b : SysBuf),
      radAtoms W w slotsOf cntOf sens ns b l ns' idx' d = b ns' idx' d := by
  intro l
  induction l with
  | nil => intro b; simp [radAtoms]
  | cons na rest ih =>
      intro b
      unfold radAtoms
      rw [List.foldl_cons]
      show radAtoms W w slotsOf cntOf sens ns _ rest ns' idx' d = _
      rw [ih]
      by_cases hw : w ≠ 0
      · rw [if_pos hw,
          radSlots_untouched W (slotsOf na) ns (sens na) ns' idx' d (cntOf na) b
            (fun nsl hnsl sd hsd hcon => hns hcon.1)]
      · rw [if_neg hw]

/-- Unfolding the last iteration of the per-atom loop over
`List.range (m+1)`. -/
theorem radAtoms_range_succ (W w : Nat) (slotsOf : Nat → Nat → Nat)
    (cntOf : Nat → Nat) (sens : Nat → SensVec) (ns m : Nat) (b : SysBuf) :
    radAtoms W w slotsOf cntOf sens ns b (List.range (m + 1))
      = (if w ≠ 0 then
          radSlots W (slotsOf m) (cntOf m)
            (radAtoms W w slotsOf cntOf sens ns b (List.range m)) ns (sens m)
         else radAtoms W w slotsOf cntOf sens ns b (List.range m)) := by
  unfold radAtoms
  rw [List.range_succ, List.foldl_append, List.foldl_cons, List.foldl_nil]

/-- Frame property of the per-atom loop: a cell of system `ns` written by
no configured `(na, nsl, sd)` triple is unchanged. -/
theorem radAtoms_untouched (W w : Nat) (slotsOf : Nat → Nat → Nat)
    (cntOf : Nat → Nat) (sens : Nat → SensVec) (ns idx' d : Nat) :
    ∀ (m : Nat) (b : SysBuf),
      (∀ na < m, ∀ nsl < cntOf na, ∀ sd < W, idx' ≠ slotsOf na nsl + sd) →
      radAtoms W w slotsOf cntOf sens ns b (List.range m) ns idx' d
        = b ns idx' d := by
  intro m
  induction m with
  | zero => intro b h; simp [radAtoms]
  | succ m ih =>
      intro b h
      rw [radAtoms_range_succ]
      by_cases hw : w ≠ 0
      · rw [if_pos hw,
          radSlots_untouched W (slotsOf m) ns (sens m) ns idx' d (cntOf m) _
            (fun nsl hnsl sd hsd hcon =>
              h m (Nat.lt_succ_self m) nsl hnsl sd hsd hcon.2)]
        exact ih b (fun na hna => h na (Nat.lt_succ_of_lt hna))
      · rw [if_neg hw]
        exact ih b (fun na hna => h na (Nat.lt_succ_of_lt hna))

/-- Value property of the per-atom loop: with globally non-aliasing slot
configuration, the cell `(ns, slotsOf na nsl + sd)` ends as its old
value times `sens na sd`. -/
theorem radAtoms_value (W w : Nat) (slotsOf : Nat → Nat → Nat)
    (cntOf : Nat → Nat) (sens : Nat → SensVec) (ns d : Nat) (hw : w ≠ 0) :
    ∀ (m : Nat) (b : SysBuf) (na nsl sd : Nat),
      na < m → nsl < cntOf na → sd < W →
      (∀ na' < m, ∀ nsl' < cntOf na', ∀ sd' < W,
        slotsOf na' nsl' + sd' = slotsOf na nsl + sd →
          na' = na ∧ nsl' = nsl ∧ sd' = sd) →
      radAtoms W w slotsOf cntOf sens ns b (List.range m) ns
          (slotsOf na nsl + sd) d
        = b ns (slotsOf na nsl + sd) d * sens na sd := by
  intro m
  induction m with
  | zero => intro b na nsl sd h; omega
  | succ m ih =>
      intro b na nsl sd hna hnsl hsd sep
      rw [radAtoms_range_succ, if_pos hw]
      rcases Nat.lt_succ_iff_lt_or_eq.mp hna with hlt | heq
      · rw [radSlots_untouched W (slotsOf m) ns (sens m) ns
            (slotsOf na nsl + sd) d (cntOf m) _ ?_]
        · exact ih b na nsl sd hlt hnsl hsd
            (fun na' hna' => sep na' (Nat.lt_succ_of_lt hna'))
        · intro nsl' hnsl' sd' hsd' hcon
          have := sep m (Nat.lt_succ_self m) nsl' hnsl' sd' hsd' hcon.2.symm
          omega
      · subst heq
        rw [radSlots_value W (slotsOf na) ns (sens na) d (cntOf na) _ nsl sd
            hnsl hsd ?_]
        · rw [radAtoms_untouched W w slotsOf cntOf sens ns
            (slotsOf na nsl + sd) d na b ?_]
          intro na' hna' nsl' hnsl' sd' hsd' hcon
          have := sep na' (Nat.lt_succ_of_lt hna') nsl' hnsl' sd' hsd' hcon.symm
          omega
        · intro nsl' hnsl' sd' hsd' he
          have := sep na (Nat.lt_succ_self na) nsl' hnsl' sd' hsd' he
          exact ⟨this.2.1, this.2.2⟩

/-- Single-buffer view of the outer system loop of `reverse_autodiff`:
for each system `ns` of `l` in order, recompute `sens` from the tape and
run the per-atom second phase on this buffer. -/
def radSystemsBuf (W w : Nat) (accum : SysBuf) (tape : List DerivRecord)
    (slotsOf : Nat → Nat → Nat) (cntOf : Nat → Nat) (n_atom : Nat)
    (b : SysBuf) (l : List Nat) : SysBuf :=
  l.foldl (fun bb ns =>
    radAtoms W w slotsOf cntOf (radSens accum tape ns) ns bb
      (List.range n_atom)) b

/-- `reverse_autodiff` acts componentwise on the two derivative buffers:
`deriv1` evolves by the `slots1` system folds, `deriv2` by the `slots2`
system folds. -/
theorem reverse_autodiff_split (my_width w1 w2 : Nat) (accum : SysBuf)
    (deriv1 deriv2 : SysBuf) (tape : List DerivRecord)
    (p : Nat → AutoDiffParams) (n_atom n_system : Nat) :
    reverse_autodiff my_width w1 w2 accum deriv1 deriv2 tape p n_atom n_system
      = (radSystemsBuf my_width w1 accum tape (fun na => (p na).slots1)
           (fun na => (p na).n_slots1) n_atom deriv1 (List.range n_system),
         radSystemsBuf my_width w2 accum tape (fun na => (p na).slots2)
           (fun na => (p na).n_slots2) n_atom deriv2 (List.range n_system)) := by
  unfold reverse_autodiff
  have key : ∀ (l : List Nat) (bufs : SysBuf × SysBuf),
      l.foldl (radSystem my_width w1 w2 accum tape p n_atom) bufs
        = (radSystemsBuf my_width w1 accum tape (fun na => (p na).slots1)
             (fun na => (p na).n_slots1) n_atom bufs.1 l,
           radSystemsBuf my_width w2 accum tape (fun na => (p na).slots2)
             (fun na => (p na).n_slots2) n_atom bufs.2 l) := by
    intro l
    induction l with
    | nil => intro bufs; simp [radSystemsBuf]
    | cons ns rest ih =>
        intro bufs
        rw [List.foldl_cons]
        show rest.foldl _ (radSystem my_width w1 w2 accum tape p n_atom bufs ns) = _
        rw [ih]
        unfold radSystem
        rw [foldl_radAtomStep_split]
        rfl
  exact key (List.range n_system) (deriv1, deriv2)

/-- The system fold leaves a system it never visits unchanged. -/
theorem radSystemsBuf_untouched (W w : Nat) (accum : SysBuf)
    (tape : List DerivRecord) (slotsOf : Nat → Nat → Nat) (cntOf : Nat → Nat)
    (n_atom ns idx' d : Nat) :
    ∀ (l : List Nat) (b : SysBuf), (∀ ns'' ∈ l, ns'' ≠ ns) →
      radSystemsBuf W w accum tape slotsOf cntOf n_atom b l ns idx' d
        = b ns idx' d := by
  intro l
  induction l with
  | nil => intro b h; simp [radSystemsBuf]
  | cons ns'' rest ih =>
      intro b h
      unfold radSystemsBuf
      rw [List.foldl_cons]
      show radSystemsBuf W w accum tape slotsOf cntOf n_atom _ rest ns idx' d = _
      rw [ih _ (fun x hx => h x (List.mem_cons_of_mem _ hx)),
        radAtoms_other_system W w slotsOf cntOf (radSens accum tape ns'') ns''
          ns idx' d (Ne.symm (h ns'' (List.mem_cons_self _ _)))]

/-- Unfolding the last iteration of the system fold over
`List.range (m+1)`. -/
theorem radSystemsBuf_range_succ (W w : Nat) (accum : SysBuf)
    (tape : List DerivRecord) (slotsOf : Nat → Nat → Nat) (cntOf : Nat → Nat)
    (n_atom m : Nat) (b : SysBuf) :
    radSystemsBuf W w accum tape slotsOf cntOf n_atom b (List.range (m + 1))
      = radAtoms W w slotsOf cntOf (radSens accum tape m) m
          (radSystemsBuf W w accum tape slotsOf cntOf n_atom b (List.range m))
          (List.range n_atom) := by
  unfold radSystemsBuf
  rw [List.range_succ, List.foldl_append, List.foldl_cons, List.foldl_nil]

/-- Value property of the system fold: with non-aliasing slots, the cell
`(ns, slotsOf na nsl + sd)` of a visited system `ns < m` ends as its old
value times the phase-1 sensitivity `radSens accum tape ns na sd`. -/
theorem radSystemsBuf_value (W w : Nat) (accum : SysBuf)
    (tape : List DerivRecord) (slotsOf : Nat → Nat → Nat) (cntOf : Nat → Nat)
    (n_atom : Nat) (hw : w ≠ 0) (na nsl sd d : Nat)
    (hna : na < n_atom) (hnsl : nsl < cntOf na) (hsd : sd < W)
    (sep : ∀ na' < n_atom, ∀ nsl' < cntOf na', ∀ sd' < W,
      slotsOf na' nsl' + sd' = slotsOf na nsl + sd →
        na' = na ∧ nsl' = nsl ∧ sd' = sd) :
    ∀ (m : Nat) (b : SysBuf) (ns : Nat), ns < m →
      radSystemsBuf W w accum tape slotsOf cntOf n_atom b (List.range m) ns
          (slotsOf na nsl + sd) d
        = b ns (slotsOf na nsl + sd) d * radSens accum tape ns na sd := by
  intro m
  induction m with
  | zero => intro b ns h; omega
  | succ m ih =>
      intro b ns hns
      rw [radSystemsBuf_range_succ]
      rcases Nat.lt_succ_iff_lt_or_eq.mp hns with hlt | heq
      · rw [radAtoms_other_system W w slotsOf cntOf (radSens accum tape m) m
            ns (slotsOf na nsl + sd) d (by omega)]
        exact ih b ns hlt
      · subst heq
        rw [radAtoms_value W w slotsOf cntOf (radSens accum tape ns) ns d hw
            n_atom _ na nsl sd hna hnsl hsd sep,
          radSystemsBuf_untouched W w accum tape slotsOf cntOf n_atom ns
            (slotsOf na nsl + sd) d (List.range ns) b
            (fun x hx => by simp at hx; omega)]

/-- Claim C4: in the second phase of `reverse_autodiff`, for every system
`ns < n_system`, producer element `na < n_atom` and configured upstream
slot `s = slots1[nsl]` (resp. `slots2[nsl]`) read through that element's
`AutoDiffParams`, and for each `sens_dim < my_width`: provided the
configured slots do not alias, the Jacobian block stored at upstream
offset `s + sens_dim` of `deriv1` (resp. `deriv2`) is multiplied by the
just-computed `sens[na][sens_dim]` and the result is written back into
that upstream buffer at offset `s + sens_dim`. -/
theorem C4_upstream_scaling (my_width w1 w2 : Nat) (accum : SysBuf)
    (deriv1 deriv2 : SysBuf) (tape : List DerivRecord)
    (p : Nat → AutoDiffParams) (n_atom n_system : Nat)
    (ns na sd : Nat) (hns : ns < n_system) (hna : na < n_atom)
    (hsd : sd < my_width) :
    (∀ nsl, w1 ≠ 0 → nsl < (p na).n_slots1 →
      (∀ na' < n_atom, ∀ nsl' < (p na').n_slots1, ∀ sd' < my_width,
        (p na').slots1 nsl' + sd' = (p na).slots1 nsl + sd →
          na' = na ∧ nsl' = nsl ∧ sd' = sd) →
      ∀ d, (reverse_autodiff my_width w1 w2 accum deriv1 deriv2 tape p
              n_atom n_system).1 ns ((p na).slots1 nsl + sd) d
        = deriv1 ns ((p na).slots1 nsl + sd) d
            * radSens accum tape ns na sd) ∧
    (∀ nsl, w2 ≠ 0 → nsl < (p na).n_slots2 →
      (∀ na' < n_atom, ∀ nsl' < (p na').n_slots2, ∀ sd' < my_width,
        (p na').slots2 nsl' + sd' = (p na).slots2 nsl + sd →
          na' = na ∧ nsl' = nsl ∧ sd' = sd) →
      ∀ d, (reverse_autodiff my_width w1 w2 accum deriv1 deriv2 tape p
              n_atom n_system).2 ns ((p na).slots2 nsl + sd) d
        = deriv2 ns ((p na).slots2 nsl + sd) d
            * radSens accum tape ns na sd) := by
  constructor
  · intro nsl hw hnsl sep d
    rw [reverse_autodiff_split]
    exact radSystemsBuf_value my_width w1 accum tape
      (fun na => (p na).slots1) (fun na => (p na).n_slots1) n_atom hw
      na nsl sd d hna hnsl hsd sep n_system deriv1 ns hns
  · intro nsl hw hnsl sep d
    rw [reverse_autodiff_split]
    exact radSystemsBuf_value my_width w2 accum tape
      (fun na => (p na).slots2) (fun na => (p na).n_slots2) n_atom hw
      na nsl sd d hna hnsl hsd sep n_system deriv2 ns hns

/-- Constant test buffers and a one-record tape for the C4 witness. -/
def c4Accum : SysBuf := fun _ _ _ => 1

/-- Initial `deriv1` buffer for the C4 witness. -/
def c4Deriv1 : SysBuf := fun _ _ _ => 2

/-- Initial `deriv2` buffer for the C4 witness. -/
def c4Deriv2 : SysBuf := fun _ _ _ => 3

/-- Tape for the C4 witness: one record of output width 1 for atom 0. -/
def c4Tape : List DerivRecord := [⟨0, 0, 1⟩]

/-- Slot tables for the C4 witness: one type-1 slot at 0, one type-2
slot at 4, per element. -/
def c4Params : Nat → AutoDiffParams := fun _ => ⟨1, 1, fun _ => 0, fun _ => 4⟩

/-- Witness for C4: the scaling equations instantiated with
`my_width = w1 = w2 = 1`, one atom, one system, the `c4Tape` tape and
the `c4Params` slot configuration. -/
theorem C4_upstream_scaling_witness :
    ((0 : Nat) < 1 ∧ (1 : Nat) ≠ 0) ∧
    ((reverse_autodiff 1 1 1 c4Accum c4Deriv1 c4Deriv2 c4Tape c4Params 1 1).1
        0 ((c4Params 0).slots1 0 + 0) 0
      = c4Deriv1 0 ((c4Params 0).slots1 0 + 0) 0
          * radSens c4Accum c4Tape 0 0 0) ∧
    ((reverse_autodiff 1 1 1 c4Accum c4Deriv1 c4Deriv2 c4Tape c4Params 1 1).2
        0 ((c4Params 0).slots2 0 + 0) 0
      = c4Deriv2 0 ((c4Params 0).slots2 0 + 0) 0
          * radSens c4Accum c4Tape 0 0 0) :=
  ⟨⟨by decide, by decide⟩,
   (C4_upstream_scaling 1 1 1 c4Accum c4Deriv1 c4Deriv2 c4Tape c4Params 1 1
      0 0 0 (by decide) (by decide) (by decide)).1 0 (by decide) (by decide)
      (fun na' hna' nsl' hnsl' sd' hsd' he =>
        ⟨by omega, by simp [c4Params] at hnsl'; omega, by omega⟩) 0,
   (C4_upstream_scaling 1 1 1 c4Accum c4Deriv1 c4Deriv2 c4Tape c4Params 1 1
      0 0 0 (by decide) (by decide) (by decide)).2 0 (by decide) (by decide)
      (fun na' hna' nsl' hnsl' sd' hsd' he =>
        ⟨by omega, by simp [c4Params] at hnsl'; omega, by omega⟩) 0⟩
